import Mathlib

/-!
Verification of the SQLite/MySQL blob store (`sql.py`).

The `files` table is modelled as a list of rows together with the engine's
auto-increment counter.  Each `Database` method that touches the table is
embedded as a pure function on this state; the config loader
(`Database._load_params`) is embedded over a small JSON model with Python
truthiness; the placeholder rewriting (`Database._prepare_sql`) is embedded
on lists of characters.
-/

namespace SqlStore

/-- Which SQL engine is selected (`self.engine` after validation). -/
inductive Engine where
  | mysql
  | sqlite
deriving DecidableEq, Repr

/-- One row of the `files` table (schema from `_ensure_files_table`). -/
structure FileRow where
  id : Nat
  filename : String
  mime_type : String
  file_size : Nat
  file_data : List Nat
  sha256 : String
deriving DecidableEq, Repr

/-- The metadata projection returned by `get_all_files`
(`SELECT id, filename, mime_type, file_size, sha256`). -/
structure FileMeta where
  id : Nat
  filename : String
  mime_type : String
  file_size : Nat
  sha256 : String
deriving DecidableEq, Repr

/-- State of the backing table: the stored rows (in physical order of
insertion) and the next id the engine's auto-increment counter will assign.
Both engines are declared with an auto-increment primary key, so ids grow
monotonically and are never reused. -/
structure DBState where
  rows : List FileRow
  nextId : Nat
deriving DecidableEq, Repr

/-- A freshly created table (right after `_ensure_files_table` on an empty
database): no rows, auto-increment starts at 1. -/
def emptyDB : DBState := ⟨[], 1⟩

/-- Invariant of every reachable table state: rows appear in strictly
ascending id order and every id is below the auto-increment counter. -/
def WF (st : DBState) : Prop :=
  st.rows.Pairwise (fun a b => a.id < b.id) ∧ ∀ r ∈ st.rows, r.id < st.nextId

instance : DecidablePred WF := fun st => by
  unfold WF; infer_instance

/-- Projection of a row to its metadata (dropping `file_data`). -/
def toMeta (r : FileRow) : FileMeta :=
  ⟨r.id, r.filename, r.mime_type, r.file_size, r.sha256⟩

/-- `ORDER BY id DESC`: sort rows by descending id (stable, like the SQL
engines' sort on a unique key the order is unique anyway). -/
def sortByIdDesc (rows : List FileRow) : List FileRow :=
  List.insertionSort (fun a b => b.id ≤ a.id) rows

/-- `Database.insert_file`: append a row holding exactly the five supplied
values, the engine assigning the next auto-increment id; returns
`cursor.lastrowid` and the new table state. -/
def insert_file (filename mime_type : String) (file_size : Nat)
    (file_data : List Nat) (sha256 : String) (st : DBState) : Nat × DBState :=
  (st.nextId,
   ⟨st.rows ++ [⟨st.nextId, filename, mime_type, file_size, file_data, sha256⟩],
    st.nextId + 1⟩)

/-- `Database.get_all_files`: metadata of all rows, `ORDER BY id DESC`. -/
def get_all_files (st : DBState) : List FileMeta :=
  (sortByIdDesc st.rows).map toMeta

/-- `Database.get_file_by_id`: the full row whose id matches, or `none`
(`rows[0] if rows else None`). -/
def get_file_by_id (file_id : Nat) (st : DBState) : Option FileRow :=
  (st.rows.filter (fun r => decide (r.id = file_id))).head?

/-- `Database.get_last_file`: full row with the highest id
(`ORDER BY id DESC LIMIT 1`), or `none` on an empty table. -/
def get_last_file (st : DBState) : Option FileRow :=
  (sortByIdDesc st.rows).head?

/-- `Database.vacuum` executes a `VACUUM` statement only for the sqlite
engine; for any other engine it returns immediately without touching the
database.  The value is whether a `VACUUM` was actually executed. -/
def vacuum_runs (e : Engine) : Bool :=
  e = Engine.sqlite

/-- `Database.delete_file`: run `DELETE FROM files WHERE id = %s`, read
`cursor.rowcount`, and return `False` when it is zero; otherwise close the
connection, call `vacuum` when `vacuum_after` is set and the engine is
sqlite, and return `True`.  Result: (return value, whether a `VACUUM`
statement was executed, new table state). -/
def delete_file (e : Engine) (file_id : Nat) (vacuum_after : Bool)
    (st : DBState) : Bool × Bool × DBState :=
  let remaining := st.rows.filter (fun r => !decide (r.id = file_id))
  let rows_affected := st.rows.length - remaining.length
  if rows_affected = 0 then
    (false, false, ⟨remaining, st.nextId⟩)
  else
    (true, vacuum_after && decide (e = Engine.sqlite) && vacuum_runs e,
     ⟨remaining, st.nextId⟩)

/-- The table-mutating operations a client can run against the store. -/
inductive Op where
  | insert (filename mime_type : String) (file_size : Nat)
      (file_data : List Nat) (sha256 : String)
  | delete (e : Engine) (vacuum_after : Bool) (file_id : Nat)

/-- Effect of one operation on the table state. -/
def applyOp (op : Op) (st : DBState) : DBState :=
  match op with
  | .insert fn mt sz dat sha => (insert_file fn mt sz dat sha st).2
  | .delete e va fid => (delete_file e fid va st).2.2

/-- Effect of a sequence of operations, oldest first. -/
def applyOps (ops : List Op) (st : DBState) : DBState :=
  ops.foldl (fun s op => applyOp op s) st

/-- Whether an operation is a delete of the given id. -/
def deletesId (file_id : Nat) : Op → Bool
  | .delete _ _ x => x = file_id
  | _ => false

/-! ### Placeholder translation (`Database._prepare_sql`) -/

/-- Python's `sql.replace("%s", "?")` on a string viewed as a character
list: left-to-right, non-overlapping replacement of every occurrence of
`%s` by `?`. -/
def replacePct : List Char → List Char
  | [] => []
  | '%' :: 's' :: rest => '?' :: replacePct rest
  | c :: rest => c :: replacePct rest

/-- Whether the scan of `sql.replace` finds an occurrence of `%s`. -/
def containsPct : List Char → Bool
  | [] => false
  | '%' :: 's' :: _ => true
  | _ :: rest => containsPct rest

/-- `Database._prepare_sql`: for sqlite rewrite `%s` placeholders to `?`;
for mysql return the SQL unchanged. -/
def prepare_sql (e : Engine) (sql : List Char) : List Char :=
  if e = Engine.sqlite then replacePct sql else sql

/-! ### Config loading (`Database._load_params`) -/

/-- JSON scalar values as they occur in `db_param.json`. -/
inductive Json where
  | null
  | bool (b : Bool)
  | num (n : Int)
  | str (s : String)
deriving DecidableEq, Repr

/-- A JSON object, as an association list preserving key order. -/
abbrev Config : Type := List (String × Json)

/-- `data.get(k)`: the value stored at a key, if any (first binding wins,
like a Python dict with unique keys). -/
def getVal (k : String) : List (String × Json) → Option Json
  | [] => none
  | (k', v) :: rest => if k' = k then some v else getVal k rest

/-- `data[k] = v`: replace the binding of `k`, or append it if absent. -/
def setVal (k : String) (v : Json) : List (String × Json) → List (String × Json)
  | [] => [(k, v)]
  | (k', v') :: rest => if k' = k then (k, v) :: rest else (k', v') :: setVal k v rest

/-- Python truthiness of `data.get(k)`: `None`/absent, `False`, `0` and
`""` are falsy. -/
def truthy : Option Json → Bool
  | none => false
  | some .null => false
  | some (.bool b) => b
  | some (.num n) => !decide (n = 0)
  | some (.str s) => !decide (s = "")

/-- Python `str()` applied to a JSON scalar. -/
def pyStr : Json → String
  | .null => "None"
  | .bool true => "True"
  | .bool false => "False"
  | .num n => toString n
  | .str s => s

/-- The failure modes of `Database._load_params` (the exceptions raised). -/
inductive ConfigError where
  | fileNotFound
  | badEngine
  | missingMysql (keys : List String)
  | missingSqliteDb
deriving DecidableEq, Repr

/-- The MySQL keys `_load_params` demands. -/
def requiredKeys : List String := ["host", "user", "password", "database"]

/-- Python `.lower()` on an ASCII string: lowercase every character. -/
def pyLower (s : String) : String :=
  ⟨s.data.map Char.toLower⟩

/-- `str(data.get("engine", "mysql")).lower()`. -/
def engineOf (data : Config) : String :=
  pyLower (pyStr ((getVal "engine" data).getD (Json.str "mysql")))

/-- `Database._load_params`: fail if the config file does not exist;
resolve the engine (defaulting to `"mysql"`, lowercased) and reject
anything but `mysql`/`sqlite`; for mysql, reject when any of
host/user/password/database is missing or falsy, naming exactly those
keys, and default a missing or falsy port to 3306; for sqlite, reject a
missing or falsy database path.  Returns the (possibly updated) config. -/
def load_params (fileExists : Bool) (data : Config) : Except ConfigError Config :=
  if !fileExists then
    .error .fileNotFound
  else
    let engine := engineOf data
    if ¬(engine = "mysql" ∨ engine = "sqlite") then
      .error .badEngine
    else if engine = "mysql" then
      let missing := requiredKeys.filter (fun k => !truthy (getVal k data))
      if missing ≠ [] then
        .error (.missingMysql missing)
      else if !truthy (getVal "port" data) then
        .ok (setVal "port" (.num 3306) data)
      else
        .ok data
    else
      if !truthy (getVal "database" data) then
        .error .missingSqliteDb
      else
        .ok data

/-- A sample row used to instantiate hypotheses concretely. -/
def sampleRow : FileRow := ⟨1, "a.bin", "application/octet-stream", 3, [1, 2, 3], "abc"⟩

/-- A sample well-formed one-row table. -/
def sampleDB : DBState := ⟨[sampleRow], 2⟩

/-! ### Lemmas about `delete_file` -/

lemma filter_keep_of_forall_ne {X : Nat} {rows : List FileRow}
    (h : ∀ r ∈ rows, r.id ≠ X) :
    rows.filter (fun r => !decide (r.id = X)) = rows := by
  rw [List.filter_eq_self]
  intro r hr
  simp [h r hr]

lemma length_filter_lt_of_mem {X : Nat} {rows : List FileRow}
    (h : ∃ r ∈ rows, r.id = X) :
    (rows.filter fun r => !decide (r.id = X)).length < rows.length := by
  induction rows with
  | nil => simp at h
  | cons a l ih =>
    by_cases ha : a.id = X
    · rw [show (a :: l).filter (fun r => !decide (r.id = X)) =
          l.filter (fun r => !decide (r.id = X)) from by simp [List.filter_cons, ha],
        List.length_cons]
      exact Nat.lt_succ_of_le (List.length_filter_le _ _)
    · obtain ⟨r, hr, hid⟩ := h
      rcases List.mem_cons.mp hr with hr | hr
      · exact absurd (hr ▸ hid) ha
      · rw [show (a :: l).filter (fun r => !decide (r.id = X)) =
            a :: l.filter (fun r => !decide (r.id = X)) from by simp [List.filter_cons, ha],
          List.length_cons, List.length_cons]
        exact Nat.succ_lt_succ (ih ⟨r, hr, hid⟩)

lemma delete_file_state (e : Engine) (X : Nat) (va : Bool) (st : DBState) :
    (delete_file e X va st).2.2 =
      ⟨st.rows.filter (fun r => !decide (r.id = X)), st.nextId⟩ := by
  unfold delete_file
  dsimp only
  split <;> rfl

lemma delete_file_of_no_match {e : Engine} {X : Nat} {va : Bool} {st : DBState}
    (h : ∀ r ∈ st.rows, r.id ≠ X) :
    delete_file e X va st = (false, false, st) := by
  unfold delete_file
  dsimp only
  rw [filter_keep_of_forall_ne h]
  simp

lemma delete_file_of_match {e : Engine} {X : Nat} {va : Bool} {st : DBState}
    (h : ∃ r ∈ st.rows, r.id = X) :
    delete_file e X va st =
      (true, va && decide (e = Engine.sqlite) && vacuum_runs e,
       ⟨st.rows.filter (fun r => !decide (r.id = X)), st.nextId⟩) := by
  have hlt := length_filter_lt_of_mem h
  unfold delete_file
  dsimp only
  rw [if_neg (Nat.sub_ne_zero_of_lt hlt)]

/-- C3: `delete_file(X)` returns `True` exactly when a row with id `X`
existed in the table (and was removed); with no such row it returns
`False`. -/
theorem delete_file_true_iff_existed (e : Engine) (va : Bool) (X : Nat) (st : DBState) :
    ((delete_file e X va st).1 = true ↔ ∃ r ∈ st.rows, r.id = X) ∧
    ((∀ r ∈ st.rows, r.id ≠ X) → (delete_file e X va st).1 = false) := by
  constructor
  · constructor
    · intro htrue
      by_contra hnone
      push_neg at hnone
      rw [delete_file_of_no_match hnone] at htrue
      exact Bool.false_ne_true htrue
    · intro hex
      rw [delete_file_of_match hex]
  · intro hnone
    rw [delete_file_of_no_match hnone]

/-- C3 witness: deleting an absent id from the sample table returns
`False`. -/
theorem delete_file_true_iff_existed_witness :
    (delete_file Engine.mysql 5 true sampleDB).1 = false :=
  (delete_file_true_iff_existed Engine.mysql true 5 sampleDB).2 (by decide)

/-- C2: after a `delete_file(X)` that returned `True`, `get_file_by_id(X)`
returns `None`. -/
theorem delete_then_get_none (e : Engine) (va : Bool) (X : Nat) (st : DBState)
    (_h : (delete_file e X va st).1 = true) :
    get_file_by_id X (delete_file e X va st).2.2 = none := by
  rw [delete_file_state]
  unfold get_file_by_id
  dsimp only
  rw [List.filter_filter]
  have : st.rows.filter (fun r => decide (r.id = X) && !decide (r.id = X)) = [] := by
    rw [List.filter_eq_nil_iff]
    intro r _
    by_cases hr : r.id = X <;> simp [hr]
  rw [this]
  rfl

/-- C2 witness: delete id 1 from the sample table, then fetch it. -/
theorem delete_then_get_none_witness :
    get_file_by_id 1 (delete_file Engine.sqlite 1 true sampleDB).2.2 = none :=
  delete_then_get_none Engine.sqlite true 1 sampleDB (by decide)

/-- C9: a `delete_file(X)` that matches no row returns `False`, runs no
`VACUUM`, and leaves the table state unchanged; a `VACUUM` is executed only
when a row was actually removed and the engine is sqlite, and `vacuum`
itself never executes anything for the mysql engine. -/
theorem delete_file_vacuum_frame (e : Engine) (va : Bool) (X : Nat) (st : DBState) :
    ((∀ r ∈ st.rows, r.id ≠ X) → delete_file e X va st = (false, false, st)) ∧
    ((delete_file e X va st).2.1 = true →
      (delete_file e X va st).1 = true ∧ e = Engine.sqlite) ∧
    vacuum_runs Engine.mysql = false := by
  refine ⟨fun h => delete_file_of_no_match h, ?_, rfl⟩
  intro hvac
  by_cases hex : ∃ r ∈ st.rows, r.id = X
  · rw [delete_file_of_match hex] at hvac ⊢
    refine ⟨rfl, ?_⟩
    have := (Bool.and_eq_true _ _).mp hvac
    have h2 := (Bool.and_eq_true _ _).mp this.1
    exact of_decide_eq_true h2.2
  · push_neg at hex
    rw [delete_file_of_no_match hex] at hvac
    exact absurd hvac (by simp)

/-- C9 witness: deleting an absent id 5 from the sample table. -/
theorem delete_file_vacuum_frame_witness :
    delete_file Engine.sqlite 5 true sampleDB = (false, false, sampleDB) :=
  (delete_file_vacuum_frame Engine.sqlite true 5 sampleDB).1 (by decide)

/-! ### Invariant preservation and `get_file_by_id` stability -/

lemma WF_emptyDB : WF emptyDB := by
  constructor
  · exact List.Pairwise.nil
  · intro r hr
    exact absurd hr (List.not_mem_nil r)

lemma WF_insert {st : DBState} (hwf : WF st) (fn mt : String) (sz : Nat)
    (dat : List Nat) (sha : String) :
    WF (insert_file fn mt sz dat sha st).2 := by
  obtain ⟨hpw, hlt⟩ := hwf
  unfold insert_file WF
  dsimp only
  constructor
  · rw [List.pairwise_append]
    refine ⟨hpw, List.pairwise_singleton _ _, ?_⟩
    intro a ha b hb
    rw [List.mem_singleton] at hb
    rw [hb]
    exact hlt a ha
  · intro r hr
    rcases List.mem_append.mp hr with h | h
    · exact Nat.lt_succ_of_lt (hlt r h)
    · rw [List.mem_singleton] at h
      rw [h]
      exact Nat.lt_succ_self _

lemma WF_delete {e : Engine} {X : Nat} {va : Bool} {st : DBState} (hwf : WF st) :
    WF (delete_file e X va st).2.2 := by
  rw [delete_file_state]
  exact ⟨List.Pairwise.sublist (List.filter_sublist _) hwf.1,
         fun r hr => hwf.2 r (List.mem_of_mem_filter hr)⟩

lemma WF_applyOp {op : Op} {st : DBState} (hwf : WF st) : WF (applyOp op st) := by
  cases op with
  | insert fn mt sz dat sha => exact WF_insert hwf fn mt sz dat sha
  | delete e va fid => exact WF_delete hwf

lemma nextId_applyOp (op : Op) (st : DBState) :
    st.nextId ≤ (applyOp op st).nextId := by
  cases op with
  | insert fn mt sz dat sha => exact Nat.le_succ _
  | delete e va fid =>
      show st.nextId ≤ (delete_file e fid va st).2.2.nextId
      rw [delete_file_state]

lemma get_file_by_id_insert_fresh {st : DBState} (hwf : WF st)
    (fn mt : String) (sz : Nat) (dat : List Nat) (sha : String) :
    get_file_by_id st.nextId (insert_file fn mt sz dat sha st).2 =
      some ⟨st.nextId, fn, mt, sz, dat, sha⟩ := by
  unfold get_file_by_id insert_file
  dsimp only
  rw [List.filter_append]
  have h1 : st.rows.filter (fun r => decide (r.id = st.nextId)) = [] := by
    rw [List.filter_eq_nil_iff]
    intro r hr
    simp only [decide_eq_true_eq]
    exact Nat.ne_of_lt (hwf.2 r hr)
  rw [h1]
  simp

lemma get_file_by_id_applyOp {fid : Nat} {row : FileRow} {op : Op} {st : DBState}
    (_hwf : WF st) (hfid : fid < st.nextId) (hop : deletesId fid op = false)
    (hget : get_file_by_id fid st = some row) :
    get_file_by_id fid (applyOp op st) = some row := by
  cases op with
  | insert fn mt sz dat sha =>
      show get_file_by_id fid (insert_file fn mt sz dat sha st).2 = some row
      unfold get_file_by_id at hget ⊢
      unfold insert_file
      dsimp only at hget ⊢
      rw [List.filter_append]
      have h1 : [(⟨st.nextId, fn, mt, sz, dat, sha⟩ : FileRow)].filter
          (fun r => decide (r.id = fid)) = [] := by
        rw [List.filter_eq_nil_iff]
        intro r hr
        rw [List.mem_singleton] at hr
        rw [hr]
        simp only [decide_eq_true_eq]
        exact Nat.ne_of_gt hfid
      rw [h1, List.append_nil]
      exact hget
  | delete e va X =>
      have hX : ¬(X = fid) := by
        simpa [deletesId] using hop
      show get_file_by_id fid (delete_file e X va st).2.2 = some row
      rw [delete_file_state]
      unfold get_file_by_id at hget ⊢
      dsimp only at hget ⊢
      rw [List.filter_filter]
      have h2 : st.rows.filter (fun r => decide (r.id = fid) && !decide (r.id = X)) =
          st.rows.filter (fun r => decide (r.id = fid)) := by
        apply List.filter_congr
        intro r _
        by_cases h : r.id = fid
        · have hfx : ¬(fid = X) := fun hc => hX hc.symm
          simp [h, hfx]
        · simp [h]
      rw [h2]
      exact hget

lemma get_file_by_id_applyOps {fid : Nat} {row : FileRow} {ops : List Op} :
    ∀ {st : DBState}, WF st → fid < st.nextId →
    (∀ op ∈ ops, deletesId fid op = false) →
    get_file_by_id fid st = some row →
    get_file_by_id fid (applyOps ops st) = some row := by
  induction ops with
  | nil => intro st _ _ _ hget; exact hget
  | cons op rest ih =>
      intro st hwf hfid hops hget
      show get_file_by_id fid (applyOps rest (applyOp op st)) = some row
      exact ih (WF_applyOp hwf)
        (Nat.lt_of_lt_of_le hfid (nextId_applyOp op st))
        (fun o ho => hops o (List.mem_cons_of_mem op ho))
        (get_file_by_id_applyOp hwf hfid (hops op (List.mem_cons_self op rest)) hget)

/-- C1: inserting bytes `B` with metadata `(fn, mt, sz, B, digest B)` and
later (after any operations that do not delete the returned id) fetching
that id yields a row whose `file_data` is `B` and whose `sha256` is
`digest B`. -/
theorem insert_roundtrip (digest : List Nat → String) (fn mt : String)
    (sz : Nat) (B : List Nat) (st : DBState) (ops : List Op) (hwf : WF st)
    (hops : ∀ op ∈ ops,
      deletesId (insert_file fn mt sz B (digest B) st).1 op = false) :
    get_file_by_id (insert_file fn mt sz B (digest B) st).1
        (applyOps ops (insert_file fn mt sz B (digest B) st).2) =
      some ⟨(insert_file fn mt sz B (digest B) st).1, fn, mt, sz, B, digest B⟩ := by
  exact get_file_by_id_applyOps (WF_insert hwf fn mt sz B (digest B))
    (Nat.lt_succ_self _) hops (get_file_by_id_insert_fresh hwf fn mt sz B (digest B))

/-- C1 witness: insert `[1,2,3]` into the empty table, run an unrelated
insert and an unrelated delete, then fetch id 1. -/
theorem insert_roundtrip_witness :
    get_file_by_id 1
        (applyOps [Op.insert "b.bin" "text/plain" 1 [9] "ff",
                   Op.delete Engine.sqlite true 2]
          (insert_file "a.bin" "text/plain" 3 [1, 2, 3]
            ((fun _ => "d1") [1, 2, 3]) emptyDB).2) =
      some ⟨1, "a.bin", "text/plain", 3, [1, 2, 3], "d1"⟩ :=
  insert_roundtrip (fun _ => "d1") "a.bin" "text/plain" 3 [1, 2, 3] emptyDB
    [Op.insert "b.bin" "text/plain" 1 [9] "ff", Op.delete Engine.sqlite true 2]
    (by decide) (by intro op hop; fin_cases hop <;> decide)

/-! ### `ORDER BY id DESC` on a well-formed table -/

lemma orderedInsert_desc_last {a : FileRow} :
    ∀ {l : List FileRow}, (∀ x ∈ l, a.id < x.id) →
    List.orderedInsert (fun u v => v.id ≤ u.id) a l = l ++ [a] := by
  intro l
  induction l with
  | nil => intro _; rfl
  | cons b l ih =>
      intro h
      show (if b.id ≤ a.id then _ else _) = _
      rw [if_neg (Nat.not_le.mpr (h b (List.mem_cons_self b l)))]
      rw [ih (fun x hx => h x (List.mem_cons_of_mem b hx))]
      rfl

lemma sortByIdDesc_of_ascending :
    ∀ {l : List FileRow}, l.Pairwise (fun a b => a.id < b.id) →
    sortByIdDesc l = l.reverse := by
  intro l
  induction l with
  | nil => intro _; rfl
  | cons a l ih =>
      intro hp
      show List.orderedInsert _ a (List.insertionSort _ l) = _
      have h1 : List.insertionSort (fun u v => v.id ≤ u.id) l = l.reverse :=
        ih hp.of_cons
      rw [h1, orderedInsert_desc_last
        (fun x hx => List.rel_of_pairwise_cons hp (List.mem_reverse.mp hx)),
        List.reverse_cons]

/-- C4: `get_all_files` returns exactly one metadata entry (without
`file_data`) per stored row, ordered by strictly descending id; inserting
A, B, C into an empty table lists them as `[C, B, A]`. -/
theorem get_all_files_spec (st : DBState) (hwf : WF st) :
    get_all_files st = (st.rows.map toMeta).reverse ∧
    (get_all_files st).Pairwise (fun a b => b.id < a.id) ∧
    (∀ fnA mtA szA dA shA fnB mtB szB dB shB fnC mtC szC dC shC,
      get_all_files
          (insert_file fnC mtC szC dC shC
            (insert_file fnB mtB szB dB shB
              (insert_file fnA mtA szA dA shA emptyDB).2).2).2 =
        [⟨3, fnC, mtC, szC, shC⟩, ⟨2, fnB, mtB, szB, shB⟩,
         ⟨1, fnA, mtA, szA, shA⟩]) := by
  have h1 : get_all_files st = (st.rows.map toMeta).reverse := by
    unfold get_all_files
    rw [sortByIdDesc_of_ascending hwf.1, List.map_reverse]
  refine ⟨h1, ?_, ?_⟩
  · rw [h1, List.pairwise_reverse, List.pairwise_map]
    exact hwf.1
  · intro fnA mtA szA dA shA fnB mtB szB dB shB fnC mtC szC dC shC
    rfl

/-- C4 witness: the one-row sample table. -/
theorem get_all_files_spec_witness :
    get_all_files sampleDB = (sampleDB.rows.map toMeta).reverse :=
  (get_all_files_spec sampleDB (by decide)).1

/-- C8: `get_last_file` returns `None` on an empty table and otherwise the
full row with the highest id; directly after an insert it returns the row
just inserted. -/
theorem get_last_file_spec (st : DBState) (hwf : WF st) :
    (st.rows = [] → get_last_file st = none) ∧
    (st.rows ≠ [] → ∃ r, get_last_file st = some r ∧ r ∈ st.rows ∧
      ∀ x ∈ st.rows, x.id ≤ r.id) ∧
    (∀ fn mt sz dat sha,
      get_last_file (insert_file fn mt sz dat sha st).2 =
        some ⟨st.nextId, fn, mt, sz, dat, sha⟩) := by
  refine ⟨?_, ?_, ?_⟩
  · intro h
    unfold get_last_file
    rw [h]
    rfl
  · intro hne
    have h1 : get_last_file st = st.rows.reverse.head? := by
      unfold get_last_file
      rw [sortByIdDesc_of_ascending hwf.1]
    obtain ⟨a, t, hrev⟩ : ∃ a t, st.rows.reverse = a :: t := by
      cases hr : st.rows.reverse with
      | nil => exact absurd (List.reverse_eq_nil_iff.mp hr) hne
      | cons a t => exact ⟨a, t, rfl⟩
    have hdesc : (a :: t).Pairwise (fun u v => v.id < u.id) := by
      rw [← hrev, List.pairwise_reverse]
      exact hwf.1
    refine ⟨a, by rw [h1, hrev]; rfl,
      List.mem_reverse.mp (hrev ▸ List.mem_cons_self a t), ?_⟩
    intro x hx
    rcases List.mem_cons.mp (hrev ▸ List.mem_reverse.mpr hx) with h | h
    · rw [h]
    · exact Nat.le_of_lt (List.rel_of_pairwise_cons hdesc h)
  · intro fn mt sz dat sha
    unfold get_last_file
    rw [sortByIdDesc_of_ascending (WF_insert hwf fn mt sz dat sha).1]
    show ((st.rows ++ [_]).reverse).head? = _
    rw [List.reverse_append]
    rfl

/-- C8 witness: the sample table and an insert into it. -/
theorem get_last_file_spec_witness :
    get_last_file (insert_file "b.bin" "text/plain" 1 [9] "ff" sampleDB).2 =
      some ⟨2, "b.bin", "text/plain", 1, [9], "ff"⟩ :=
  (get_last_file_spec sampleDB (by decide)).2.2 "b.bin" "text/plain" 1 [9] "ff"

/-! ### Placeholder translation -/

lemma prepare_sql_mysql (s : List Char) : prepare_sql Engine.mysql s = s := by
  unfold prepare_sql
  rw [if_neg (by decide)]

lemma prepare_sql_sqlite (s : List Char) :
    prepare_sql Engine.sqlite s = replacePct s := by
  unfold prepare_sql
  rw [if_pos rfl]

lemma replacePct_append_occ : ∀ (a b : List Char),
    replacePct (a ++ '%' :: 's' :: b) = replacePct a ++ '?' :: replacePct b := by
  intro a
  induction a using replacePct.induct with
  | case1 => intro b; rfl
  | case2 rest ih =>
      intro b
      show replacePct ('%' :: 's' :: (rest ++ '%' :: 's' :: b)) =
        replacePct ('%' :: 's' :: rest) ++ '?' :: replacePct b
      rw [replacePct.eq_2, replacePct.eq_2, ih]
      rfl
  | case3 c rest hne ih =>
      intro b
      have h' : ∀ t, c = '%' → rest ++ '%' :: 's' :: b = 's' :: t → False := by
        intro t hc hr
        cases rest with
        | nil =>
            exact absurd (List.cons_eq_cons.mp hr).1 (by decide)
        | cons d t' =>
            exact hne t' hc (by rw [(List.cons_eq_cons.mp hr).1])
      show replacePct (c :: (rest ++ '%' :: 's' :: b)) =
        replacePct (c :: rest) ++ '?' :: replacePct b
      rw [replacePct.eq_3 c _ h', replacePct.eq_3 c rest hne, ih]
      rfl

lemma replacePct_of_not_contains :
    ∀ {s : List Char}, containsPct s = false → replacePct s = s := by
  intro s
  induction s using replacePct.induct with
  | case1 => intro _; rfl
  | case2 rest ih =>
      intro h
      rw [containsPct.eq_2] at h
      exact absurd h (by decide)
  | case3 c rest hne ih =>
      intro h
      rw [containsPct.eq_3 c rest hne] at h
      rw [replacePct.eq_3 c rest hne, ih h]

lemma replacePct_not_starts_s {rest : List Char}
    (h : ∀ t, rest = 's' :: t → False) :
    ∀ t', replacePct rest = 's' :: t' → False := by
  intro t' heq
  cases rest with
  | nil =>
      rw [replacePct.eq_1] at heq
      exact List.noConfusion heq
  | cons d t =>
      have hd : ¬(d = 's') := fun hds => h t (by rw [hds])
      by_cases hds : d = '%' ∧ ∃ u, t = 's' :: u
      · obtain ⟨hdp, u, hu⟩ := hds
        rw [hdp, hu, replacePct.eq_2] at heq
        exact absurd (List.cons_eq_cons.mp heq).1 (by decide)
      · have hcond : ∀ r1, d = '%' → t = 's' :: r1 → False :=
          fun r1 hdp ht => hds ⟨hdp, r1, ht⟩
        rw [replacePct.eq_3 d t hcond] at heq
        exact hd (List.cons_eq_cons.mp heq).1

lemma containsPct_replacePct : ∀ (s : List Char),
    containsPct (replacePct s) = false := by
  intro s
  induction s using replacePct.induct with
  | case1 => rfl
  | case2 rest ih =>
      rw [replacePct.eq_2, containsPct.eq_3 '?' _ (by intro t h; exact absurd h (by decide))]
      exact ih
  | case3 c rest hne ih =>
      have hcond : ∀ t', c = '%' → replacePct rest = 's' :: t' → False := by
        intro t' hc
        exact replacePct_not_starts_s (fun t ht => hne t hc ht) t'
      rw [replacePct.eq_3 c rest hne, containsPct.eq_3 c _ hcond]
      exact ih

/-- C7: `_prepare_sql` leaves the SQL unchanged for mysql; for sqlite it
replaces every (left-to-right, non-overlapping) occurrence of `%s` with
`?`: it commutes with splitting at an occurrence, leaves occurrence-free
strings unchanged, and its output never contains `%s`. -/
theorem prepare_sql_spec :
    (∀ s : List Char, prepare_sql Engine.mysql s = s) ∧
    (∀ a b : List Char,
      prepare_sql Engine.sqlite (a ++ '%' :: 's' :: b) =
        prepare_sql Engine.sqlite a ++ '?' :: prepare_sql Engine.sqlite b) ∧
    (∀ s : List Char, containsPct s = false → prepare_sql Engine.sqlite s = s) ∧
    (∀ s : List Char, containsPct (prepare_sql Engine.sqlite s) = false) := by
  refine ⟨prepare_sql_mysql, ?_, ?_, ?_⟩
  · intro a b
    rw [prepare_sql_sqlite, prepare_sql_sqlite, prepare_sql_sqlite]
    exact replacePct_append_occ a b
  · intro s h
    rw [prepare_sql_sqlite]
    exact replacePct_of_not_contains h
  · intro s
    rw [prepare_sql_sqlite]
    exact containsPct_replacePct s

/-- C7 witness: a placeholder-free SQL string is unchanged for sqlite. -/
theorem prepare_sql_spec_witness :
    prepare_sql Engine.sqlite ['V', 'A', 'C', 'U', 'U', 'M'] =
      ['V', 'A', 'C', 'U', 'U', 'M'] :=
  prepare_sql_spec.2.2.1 ['V', 'A', 'C', 'U', 'U', 'M'] (by decide)

/-! ### Config loading -/

lemma getVal_setVal (k : String) (v : Json) :
    ∀ d : Config, getVal k (setVal k v d) = some v := by
  intro d
  induction d with
  | nil =>
      show getVal k [(k, v)] = some v
      unfold getVal
      rw [if_pos rfl]
  | cons p rest ih =>
      obtain ⟨k', v'⟩ := p
      by_cases h : k' = k
      · unfold setVal
        rw [if_pos h]
        unfold getVal
        rw [if_pos rfl]
      · unfold setVal
        rw [if_neg h]
        unfold getVal
        rw [if_neg h]
        exact ih

lemma load_params_true_mysql (data : Config) (heng : engineOf data = "mysql") :
    load_params true data =
      if requiredKeys.filter (fun k => !truthy (getVal k data)) ≠ [] then
        .error (.missingMysql (requiredKeys.filter (fun k => !truthy (getVal k data))))
      else if !truthy (getVal "port" data) then
        .ok (setVal "port" (Json.num 3306) data)
      else
        .ok data := by
  unfold load_params
  simp only [heng, Bool.not_true, Bool.false_eq_true, if_false]
  rw [if_neg (fun h => h (Or.inl trivial)), if_pos trivial]

/-- C6: for the mysql engine, a required key that is absent makes
construction fail with a configuration error naming (at least) that key
among the missing ones; with all required keys supplied and no `port` key,
loading succeeds and the returned config carries `port = 3306`. -/
theorem load_params_mysql_required (data : Config) (heng : engineOf data = "mysql") :
    ((∃ k ∈ requiredKeys, getVal k data = none) →
      ∃ m, load_params true data = .error (.missingMysql m) ∧
        m = requiredKeys.filter (fun k => !truthy (getVal k data)) ∧
        ∀ k ∈ requiredKeys, getVal k data = none → k ∈ m) ∧
    ((∀ k ∈ requiredKeys, truthy (getVal k data) = true) →
      getVal "port" data = none →
      ∃ d, load_params true data = .ok d ∧
        getVal "port" d = some (Json.num 3306)) := by
  have hbr := load_params_true_mysql data heng
  constructor
  · intro hex
    obtain ⟨k, hk, habs⟩ := hex
    have hmem : k ∈ requiredKeys.filter (fun j => !truthy (getVal j data)) :=
      List.mem_filter.mpr ⟨hk, by rw [habs]; rfl⟩
    refine ⟨requiredKeys.filter (fun j => !truthy (getVal j data)), ?_, rfl, ?_⟩
    · rw [hbr, if_pos (List.ne_nil_of_mem hmem)]
    · intro j hj hjabs
      exact List.mem_filter.mpr ⟨hj, by rw [hjabs]; rfl⟩
  · intro hall hport
    have hnil : requiredKeys.filter (fun j => !truthy (getVal j data)) = [] := by
      rw [List.filter_eq_nil_iff]
      intro j hj
      rw [hall j hj]
      exact (by decide)
    refine ⟨setVal "port" (Json.num 3306) data, ?_, getVal_setVal _ _ _⟩
    rw [hbr, if_neg (by rw [hnil]; exact fun h => h rfl), if_pos (by rw [hport]; rfl)]

/-- C6 witness: a mysql config with `password` absent, and one with all
keys supplied and no `port`. -/
theorem load_params_mysql_required_witness :
    load_params true
        [("engine", Json.str "mysql"), ("host", Json.str "h"),
         ("user", Json.str "u"), ("database", Json.str "d")] =
      .error (.missingMysql ["password"]) := by
  obtain ⟨m, hm, hmeq, -⟩ :=
    (load_params_mysql_required
        [("engine", Json.str "mysql"), ("host", Json.str "h"),
         ("user", Json.str "u"), ("database", Json.str "d")] (by decide)).1
      ⟨"password", by decide, by decide⟩
  rw [hm, hmeq]
  rfl

/-- C10: for the mysql engine, a required key that is present with a falsy
value (empty string, 0, false, null) is treated like a missing key —
construction fails with the configuration error naming it — and a `port`
that is present but falsy is likewise replaced by 3306. -/
theorem load_params_falsy (data : Config) (heng : engineOf data = "mysql") :
    (∀ k ∈ requiredKeys, ∀ v, getVal k data = some v → truthy (some v) = false →
      ∃ m, load_params true data = .error (.missingMysql m) ∧
        m = requiredKeys.filter (fun j => !truthy (getVal j data)) ∧ k ∈ m) ∧
    ((∀ k ∈ requiredKeys, truthy (getVal k data) = true) →
      ∀ v, getVal "port" data = some v → truthy (some v) = false →
      ∃ d, load_params true data = .ok d ∧
        getVal "port" d = some (Json.num 3306)) := by
  have hbr := load_params_true_mysql data heng
  constructor
  · intro k hk v hv hfalsy
    have hmem : k ∈ requiredKeys.filter (fun j => !truthy (getVal j data)) :=
      List.mem_filter.mpr ⟨hk, by rw [hv, hfalsy]; rfl⟩
    refine ⟨requiredKeys.filter (fun j => !truthy (getVal j data)), ?_, rfl, hmem⟩
    rw [hbr, if_pos (List.ne_nil_of_mem hmem)]
  · intro hall v hv hfalsy
    have hnil : requiredKeys.filter (fun j => !truthy (getVal j data)) = [] := by
      rw [List.filter_eq_nil_iff]
      intro j hj
      rw [hall j hj]
      exact (by decide)
    refine ⟨setVal "port" (Json.num 3306) data, ?_, getVal_setVal _ _ _⟩
    rw [hbr, if_neg (by rw [hnil]; exact fun h => h rfl),
      if_pos (by rw [hv, hfalsy]; rfl)]

/-- C10 witness: a mysql config whose `password` is the empty string. -/
theorem load_params_falsy_witness :
    load_params true
        [("engine", Json.str "mysql"), ("host", Json.str "h"),
         ("user", Json.str "u"), ("password", Json.str ""),
         ("database", Json.str "d")] =
      .error (.missingMysql ["password"]) := by
  obtain ⟨m, hm, hmeq, -⟩ :=
    (load_params_falsy
        [("engine", Json.str "mysql"), ("host", Json.str "h"),
         ("user", Json.str "u"), ("password", Json.str ""),
         ("database", Json.str "d")] (by decide)).1
      "password" (by decide) (Json.str "") (by decide) (by decide)
  rw [hm, hmeq]
  rfl

/-- A syntactically valid mysql config that has no `engine` key at all. -/
def cfgNoEngine : Config :=
  [("host", Json.str "h"), ("user", Json.str "u"),
   ("password", Json.str "p"), ("database", Json.str "d")]

/-- C5 counterexample: the loader accepts a config with no `engine` key —
it silently defaults the engine to mysql instead of failing — so
construction does not require the config to contain an `engine` key. -/
theorem load_params_accepts_missing_engine :
    getVal "engine" cfgNoEngine = none ∧
    load_params true cfgNoEngine =
      .ok [("host", Json.str "h"), ("user", Json.str "u"),
           ("password", Json.str "p"), ("database", Json.str "d"),
           ("port", Json.num 3306)] := by
  exact ⟨rfl, rfl⟩

/-- C5 (amended): a missing config file is a configuration error, and the
engine value — defaulting to `"mysql"` when the key is absent, and
lowercased — must be one of `mysql`/`sqlite`, anything else being a
configuration error. -/
theorem load_params_engine_check (data : Config) :
    (∀ fe : Bool, fe = false → load_params fe data = .error .fileNotFound) ∧
    (engineOf data ≠ "mysql" → engineOf data ≠ "sqlite" →
      load_params true data = .error .badEngine) ∧
    (getVal "engine" data = none → engineOf data = "mysql") := by
  refine ⟨?_, ?_, ?_⟩
  · intro fe h
    rw [h]
    rfl
  · intro h1 h2
    unfold load_params
    rw [if_neg (by decide), if_pos (not_or.mpr ⟨h1, h2⟩)]
  · intro h
    unfold engineOf
    rw [h]
    decide

/-- C5 amended-claim witness: an unrecognized engine value is rejected. -/
theorem load_params_engine_check_witness :
    load_params true [("engine", Json.str "oracle")] = .error .badEngine :=
  (load_params_engine_check [("engine", Json.str "oracle")]).2.1
    (by decide) (by decide)

end SqlStore
